import Mathlib

/-!
Verification of the meeting-room / signaling coordinator of the
smart-meeting-app server (`src/server/socket/index.js`) and of the
engagement aggregation logic (`src/server/socket/index.js`,
`src/server/controllers/engagementController.js`).

The server keeps an in-memory registry
`rooms : Map<meetingId, Map<socketId, {userName, userId, isHost}>>`.
JavaScript `Map`s are insertion-ordered with unique keys; we embed them as
association lists (`List (String × α)`) whose operations mirror
`Map.get` / `Map.set` / `Map.delete` / `Map.size` on unique-key lists.
Socket.io emissions are embedded as values of an explicit event type, so
each handler becomes a pure function `state → state × List Ev`.
-/

set_option autoImplicit false

namespace SmartMeeting

/-- `rooms.get(k)` / `room.get(k)`: first entry with the given key. -/
def mlookup {α : Type} : List (String × α) → String → Option α
  | [], _ => none
  | (k', v) :: rest, k => if k' = k then some v else mlookup rest k

/-- `Map.set(k, v)`: replace the value at an existing key in place
(JS `Map.set` keeps the original insertion position), or append a fresh
entry at the end. -/
def mset {α : Type} : List (String × α) → String → α → List (String × α)
  | [], k, v => [(k, v)]
  | (k', v') :: rest, k, v =>
    if k' = k then (k', v) :: rest else (k', v') :: mset rest k v

/-- `Map.delete(k)`: drop the entry with the given key. -/
def mdel {α : Type} : List (String × α) → String → List (String × α)
  | [], _ => []
  | (k', v') :: rest, k => if k' = k then rest else (k', v') :: mdel rest k

/-- The participant data stored per socket id:
`{ userName, userId, isHost }` (socket/index.js line 290). -/
structure Participant where
  userName : String
  userId : String
  isHost : Bool
deriving DecidableEq, Repr

/-- One room: `Map<socketId, Participant>`. -/
abbrev Room := List (String × Participant)

/-- The registry: `rooms : Map<meetingId, Room>` (socket/index.js line 13). -/
abbrev Registry := List (String × Room)

/-- Every socket.io emission the modelled handlers perform.  `to` is a
single socket id; `room`-tagged constructors are broadcasts to the
membership of `room:<meetingId>`. -/
inductive Ev where
  | roomParticipants (dest : String) (participants : List (String × Participant))
  | userJoined (room : String) (socketId : String) (p : Participant)
  | participantCount (room : String) (count : Nat)
  | joinApproved (dest : String) (meetingId : String) (isHost : Bool)
      (participants : List (String × Participant))
  | joinApprovedNotice (dest : String) (meetingId : String)
  | joinRejected (dest : String) (message : String)
  | joinWaitingRoom (dest : String) (meetingId : String)
  | waitingRoomRequest (dest : String) (userId : String) (userName : String)
      (socketId : String)
  | userLeft (room : String) (socketId : String) (userName : String)
  | removedFromMeeting (dest : String) (message : String)
  | offerEv (dest : String) (fromSocketId : String) (fromUserName : String)
      (payload : String)
  | answerEv (dest : String) (fromSocketId : String) (payload : String)
  | iceCandidateEv (dest : String) (fromSocketId : String) (payload : String)
deriving DecidableEq, Repr

/-- `admitToRoom(socket, io, meetingId, isHost)` (socket/index.js
lines 285–314).  `rooms.get(meetingId).set(socket.id, {...})` after
creating the room when absent; then the four emissions in source order:
`room-participants` to the joiner, `user-joined` to the rest of the room,
`participant-count` to the whole room, `join-approved` to the joiner. -/
def admitToRoom (st : Registry) (sockId userName userId meetingId : String)
    (isHost : Bool) : Registry × List Ev :=
  let room0 := (mlookup st meetingId).getD []
  let room1 := mset room0 sockId ⟨userName, userId, isHost⟩
  let st1 := mset st meetingId room1
  (st1,
    [ Ev.roomParticipants sockId (room1.filter (fun q => q.1 ≠ sockId)),
      Ev.userJoined meetingId sockId ⟨userName, userId, isHost⟩,
      Ev.participantCount meetingId room1.length,
      Ev.joinApproved sockId meetingId isHost room1 ])

/-- `handleLeave(socket, io, meetingId)` (socket/index.js lines 317–333):
no-op when the room is absent; otherwise deletes the socket's entry,
broadcasts `user-left` and `participant-count` with the post-delete size,
and deletes the room from the registry when it became empty. -/
def handleLeave (st : Registry) (sockId meetingId : String) :
    Registry × List Ev :=
  match mlookup st meetingId with
  | none => (st, [])
  | some room =>
    let userData := mlookup room sockId
    let room1 := mdel room sockId
    let st1 := if room1.length = 0 then mdel st meetingId
               else mset st meetingId room1
    (st1,
      [ Ev.userLeft meetingId sockId
          ((userData.map (fun p => p.userName)).getD "A participant"),
        Ev.participantCount meetingId room1.length ])

/-- The `remove-participant` handler (socket/index.js lines 210–229).
Returns early when the room is absent or the acting socket's entry is
missing or not flagged `isHost`.  Otherwise it emits the terminal notice
to the target, and — only when the target socket is still connected —
deletes the target from the room and broadcasts `user-left` and
`participant-count`.  Note line 225 reads `room.get(targetSocketId)`
*after* the delete, hence the lookup in the post-delete room here.
The handler never deletes an emptied room from the registry. -/
def removeParticipant (st : Registry) (actingSock meetingId targetSock : String)
    (targetConnected : Bool) : Registry × List Ev :=
  match mlookup st meetingId with
  | none => (st, [])
  | some room =>
    match mlookup room actingSock with
    | none => (st, [])
    | some me =>
      if !me.isHost then (st, [])
      else
        let notice := Ev.removedFromMeeting targetSock
          "You have been removed from the meeting by the host."
        if targetConnected then
          let room1 := mdel room targetSock
          let st1 := mset st meetingId room1
          (st1,
            [ notice,
              Ev.userLeft meetingId targetSock
                (((mlookup room1 targetSock).map
                    (fun p => p.userName)).getD "Participant"),
              Ev.participantCount meetingId room1.length ])
        else (st, [notice])

/-- The `disconnect` handler's loop body (socket/index.js lines 272–280):
iterate over the registry's keys and `handleLeave` every room that still
contains the socket.  `handleLeave` only ever touches the key being
visited, so iterating over the initial key list matches the live JS
`Map` iteration. -/
def disconnectAux (sockId : String) :
    List String → Registry → Registry × List Ev
  | [], st => (st, [])
  | m :: rest, st =>
    if ((mlookup st m).getD []).any (fun q => q.1 = sockId) then
      let r := handleLeave st sockId m
      let r' := disconnectAux sockId rest r.1
      (r'.1, r.2 ++ r'.2)
    else
      disconnectAux sockId rest st

/-- The `disconnect` handler (socket/index.js lines 272–280). -/
def disconnectOp (st : Registry) (sockId : String) : Registry × List Ev :=
  disconnectAux sockId (st.map (fun p => p.1)) st

/-- The `approve-waiting` handler (socket/index.js lines 124–131).
`senderSock` is the socket that sent the event; the handler never reads
it: it only looks `waitingSocketId` up among the connected sockets
(`io.sockets.sockets.get`), admits it with `isHost = false` and sends it
`join-approved`. -/
def approveWaiting (st : Registry) (senderSock : String)
    (connected : List String) (waitingSockId wName wUid meetingId : String) :
    Registry × List Ev :=
  let _ := senderSock
  if waitingSockId ∈ connected then
    let r := admitToRoom st waitingSockId wName wUid meetingId false
    (r.1, r.2 ++ [Ev.joinApprovedNotice waitingSockId meetingId])
  else (st, [])

/-- The fields of the meeting document that the `join-room` handler reads
(`Meeting.findOne({meetingId}).lean()`, socket/index.js lines 63–80). -/
structure MeetingDoc where
  status : String
  isLocked : Bool
  waitingRoomEnabled : Bool
  host : String
deriving DecidableEq, Repr

/-- The waiting-room branch of `join-room` (socket/index.js lines
80–112): the awaited `findOneAndUpdate` persisting the waiting-queue
entry either throws (`Except.error`, caught by the handler's outer
`catch`, which emits the generic `join-rejected`) or succeeds, after
which the current host connection — the first entry of the room flagged
`isHost`, if any — is notified and the requester gets
`join-waiting-room`. -/
def waitingRoomQueueFlow (st : Registry)
    (sockId userName userId meetingId : String) :
    Except Unit Unit → Registry × List Ev
  | Except.error _ =>
    (st, [Ev.joinRejected sockId "Failed to join. Please try again."])
  | Except.ok _ =>
    let hostEntry := ((mlookup st meetingId).getD []).find?
      (fun q => q.2.isHost)
    let hostEvs := (hostEntry.map
      (fun h => Ev.waitingRoomRequest h.1 userId userName sockId)).toList
    (st, hostEvs ++ [Ev.joinWaitingRoom sockId meetingId])

/-- `join-room` after the token gate (socket/index.js lines 62–120).
External effects are passed in as their results: the last argument is the
`Meeting.findOne` outcome (`Except.error` = the awaited call threw, which
the outer `catch` turns into a `join-rejected`), `queueRes` the
waiting-queue persistence outcome. -/
def joinRoomCore (st : Registry) (sockId userName userId meetingId : String)
    (queueRes : Except Unit Unit) :
    Except Unit (Option MeetingDoc) → Registry × List Ev
  | Except.error _ =>
    (st, [Ev.joinRejected sockId "Failed to join. Please try again."])
  | Except.ok none =>
    (st, [Ev.joinRejected sockId "Meeting not found."])
  | Except.ok (some meeting) =>
    if meeting.status = "ended" then
      (st, [Ev.joinRejected sockId "This meeting has ended."])
    else if meeting.isLocked ∧ meeting.host ≠ userId then
      (st, [Ev.joinRejected sockId
        "Meeting is locked. New participants cannot join."])
    else
      let isHost := meeting.host = userId
      if meeting.waitingRoomEnabled ∧ ¬isHost then
        waitingRoomQueueFlow st sockId userName userId meetingId queueRes
      else
        admitToRoom st sockId userName userId meetingId isHost

/-- The full `join-room` handler (socket/index.js lines 48–121).
The last argument embeds the optional `joinToken` and its `jwt.verify`
outcome: `none` = no token supplied; `some none` = verification threw
(expired/bad signature); `some (some (mid, auth))` = the decoded claims
`{meetingId := mid, authorized := auth}`. -/
def joinRoom (st : Registry) (sockId userName userId meetingId : String)
    (findRes : Except Unit (Option MeetingDoc)) (queueRes : Except Unit Unit) :
    Option (Option (String × Bool)) → Registry × List Ev
  | some none =>
    (st, [Ev.joinRejected sockId "Join token expired. Please join again."])
  | some (some (mid, auth)) =>
    if mid ≠ meetingId ∨ auth = false then
      (st, [Ev.joinRejected sockId
        "Invalid join token. Please re-enter the meeting."])
    else
      joinRoomCore st sockId userName userId meetingId queueRes findRes
  | none => joinRoomCore st sockId userName userId meetingId queueRes findRes

/-- The `offer` relay (socket/index.js lines 141–143): `io.to(target)`
delivers to the target socket's personal room, i.e. exactly to the target
when it is a connected socket id, and to nobody otherwise.  The registry
is returned untouched: the relay reads no room state. -/
def relayOffer (st : Registry) (connected : List String)
    (senderSock senderName targetSock payload : String) : Registry × List Ev :=
  (st, if targetSock ∈ connected then
         [Ev.offerEv targetSock senderSock senderName payload]
       else [])

/-- The `answer` relay (socket/index.js lines 145–147). -/
def relayAnswer (st : Registry) (connected : List String)
    (senderSock targetSock payload : String) : Registry × List Ev :=
  (st, if targetSock ∈ connected then
         [Ev.answerEv targetSock senderSock payload]
       else [])

/-- The `ice-candidate` relay (socket/index.js lines 149–151). -/
def relayIceCandidate (st : Registry) (connected : List String)
    (senderSock targetSock payload : String) : Registry × List Ev :=
  (st, if targetSock ∈ connected then
         [Ev.iceCandidateEv targetSock senderSock payload]
       else [])

/-! ## Engagement aggregation -/

/-- JavaScript `x || 0` applied to an optional numeric delta: `undefined`
and `0` (the falsy numbers) become `0`; every other number — including
every negative number, which is truthy in JS — passes through. -/
def jsOrZero (d : Option Int) : Int :=
  match d with
  | none => 0
  | some v => if v = 0 then 0 else v

/-- The `$inc` part of the `engagement-update` handler (socket/index.js
line 238) and of `updateEngagement` (engagementController.js lines
31–34): each counter is incremented by `delta || 0`. -/
def updateEngagementCounters (speakingTime cameraOnTime : Int)
    (speakingTimeDelta cameraOnTimeDelta : Option Int) : Int × Int :=
  (speakingTime + jsOrZero speakingTimeDelta,
   cameraOnTime + jsOrZero cameraOnTimeDelta)

/-- `scores.reduce((s, e) => s + (e.speakingTime || 0), 0)` followed by
`|| 1` (socket/index.js line 247).  On numbers `t || 0 = t` (a falsy
number is `0` itself), so the reduce is a plain sum; `|| 1` replaces a
zero total by `1`. -/
def totalSpeaking (times : List ℚ) : ℚ :=
  let s := times.foldl (fun acc t => acc + t) 0
  if s = 0 then 1 else s

/-- The broadcast score of one participant (socket/index.js line 253):
`Math.min(100, Math.round((e.speakingTime / totalSpeaking) * 100))`.
Mathlib's `round` is `⌊x + 1/2⌋`, which is exactly JS `Math.round`
(half-way cases toward +∞, also for negatives). -/
def engagementScore (times : List ℚ) (t : ℚ) : Int :=
  min 100 (round (t / totalSpeaking times * 100))

/-- Modelled from the spec: "score for participant i =
round(min(100, speakingTime_i / totalSpeakingTime_room × 100)), where
totalSpeakingTime_room is the sum of speakingTime across all participants
currently tracked for that meeting (floor of 1 to avoid division by
zero)" — the total is the sum bounded below by 1, and `min` is applied
before rounding. -/
def specEngagementScore (times : List ℚ) (t : ℚ) : Int :=
  round (min 100 (t / max (times.foldl (fun acc t' => acc + t') 0) 1 * 100))

/-! ## Well-formedness

JavaScript `Map`s have unique keys by construction; states built by the
handlers from the empty registry always satisfy `RegWF`. -/

/-- Unique meeting codes, and unique socket ids inside every room. -/
def RegWF (st : Registry) : Prop :=
  (st.map Prod.fst).Nodup ∧ ∀ p ∈ st, ((p.2.map Prod.fst).Nodup)

instance (st : Registry) : Decidable (RegWF st) :=
  inferInstanceAs (Decidable
    ((st.map Prod.fst).Nodup ∧ ∀ p ∈ st, ((p.2.map Prod.fst).Nodup)))

/-- No room in the registry has an empty participant map. -/
def NoEmptyRoom (st : Registry) : Prop := ∀ p ∈ st, p.2 ≠ []

instance : DecidablePred NoEmptyRoom := fun st =>
  inferInstanceAs (Decidable (∀ p ∈ st, p.2 ≠ []))

/-! ## Association-map lemmas -/

theorem mlookup_mset_self {α : Type} (l : List (String × α)) (k : String)
    (v : α) : mlookup (mset l k v) k = some v := by
  induction l with
  | nil => simp [mset, mlookup]
  | cons hd tl ih =>
    obtain ⟨k', v'⟩ := hd
    by_cases h : k' = k <;> simp [mset, mlookup, h, ih]

theorem mlookup_mset_ne {α : Type} (l : List (String × α)) (k k' : String)
    (v : α) (h : k' ≠ k) : mlookup (mset l k v) k' = mlookup l k' := by
  induction l with
  | nil => simp [mset, mlookup, Ne.symm h]
  | cons hd tl ih =>
    obtain ⟨k₀, v₀⟩ := hd
    by_cases h0 : k₀ = k <;> by_cases h1 : k₀ = k' <;>
      simp_all [mset, mlookup]

theorem mlookup_mdel_ne {α : Type} (l : List (String × α)) (k k' : String)
    (h : k' ≠ k) : mlookup (mdel l k) k' = mlookup l k' := by
  induction l with
  | nil => simp [mdel]
  | cons hd tl ih =>
    obtain ⟨k₀, v₀⟩ := hd
    by_cases h0 : k₀ = k <;> by_cases h1 : k₀ = k' <;>
      simp_all [mdel, mlookup]

theorem mem_of_mlookup {α : Type} {l : List (String × α)} {k : String}
    {v : α} (h : mlookup l k = some v) : (k, v) ∈ l := by
  induction l with
  | nil => simp [mlookup] at h
  | cons hd tl ih =>
    obtain ⟨k₀, v₀⟩ := hd
    by_cases h0 : k₀ = k
    · subst h0; simp [mlookup] at h; simp [h]
    · simp [mlookup, h0] at h; exact List.mem_cons_of_mem _ (ih h)

theorem mem_mset {α : Type} {l : List (String × α)} {k : String} {v : α}
    {x : String × α} (h : x ∈ mset l k v) : x ∈ l ∨ x = (k, v) := by
  induction l with
  | nil => simp [mset] at h; simp [h]
  | cons hd tl ih =>
    obtain ⟨k₀, v₀⟩ := hd
    by_cases h0 : k₀ = k
    · subst h0; simp [mset] at h
      rcases h with h | h
      · right; simp [h]
      · left; simp [h]
    · simp [mset, h0] at h
      rcases h with h | h
      · left; simp [h]
      · rcases ih h with h' | h'
        · left; simp [h']
        · right; exact h'

theorem mem_mdel {α : Type} {l : List (String × α)} {k : String}
    {x : String × α} (h : x ∈ mdel l k) : x ∈ l := by
  induction l with
  | nil => simp [mdel] at h
  | cons hd tl ih =>
    obtain ⟨k₀, v₀⟩ := hd
    by_cases h0 : k₀ = k
    · subst h0; simp [mdel] at h; exact List.mem_cons_of_mem _ h
    · simp [mdel, h0] at h
      rcases h with h | h
      · simp [h]
      · exact List.mem_cons_of_mem _ (ih h)

theorem mset_ne_nil {α : Type} (l : List (String × α)) (k : String) (v : α) :
    mset l k v ≠ [] := by
  cases l with
  | nil => simp [mset]
  | cons hd tl =>
    obtain ⟨k₀, v₀⟩ := hd
    by_cases h0 : k₀ = k <;> simp [mset, h0]

theorem keys_mset_of_mem {α : Type} (l : List (String × α)) (k : String)
    (v : α) (h : (mlookup l k).isSome) :
    (mset l k v).map Prod.fst = l.map Prod.fst := by
  induction l with
  | nil => simp [mlookup] at h
  | cons hd tl ih =>
    obtain ⟨k₀, v₀⟩ := hd
    by_cases h0 : k₀ = k
    · simp [mset, h0]
    · simp [mlookup, h0] at h
      simp [mset, h0, ih h]

theorem mem_keys_mset {α : Type} {l : List (String × α)} {k k' : String}
    {v : α} (h : k' ∈ (mset l k v).map Prod.fst) :
    k' ∈ l.map Prod.fst ∨ k' = k := by
  simp only [List.mem_map] at h
  obtain ⟨x, hx, hk⟩ := h
  rcases mem_mset hx with h' | h'
  · left; exact List.mem_map.2 ⟨x, h', hk⟩
  · right; rw [h'] at hk; exact hk.symm

theorem nodup_keys_mset {α : Type} {l : List (String × α)} (k : String)
    (v : α) (h : (l.map Prod.fst).Nodup) :
    ((mset l k v).map Prod.fst).Nodup := by
  induction l with
  | nil => simp [mset]
  | cons hd tl ih =>
    obtain ⟨k₀, v₀⟩ := hd
    simp only [List.map_cons, List.nodup_cons] at h
    by_cases h0 : k₀ = k
    · subst h0; simpa [mset] using h
    · simp only [mset]
      rw [if_neg h0]
      simp only [List.map_cons, List.nodup_cons]
      refine ⟨fun hmem => ?_, ih h.2⟩
      rcases mem_keys_mset hmem with h' | h'
      · exact h.1 h'
      · exact h0 h'

theorem nodup_keys_mdel {α : Type} {l : List (String × α)} (k : String)
    (h : (l.map Prod.fst).Nodup) : ((mdel l k).map Prod.fst).Nodup := by
  induction l with
  | nil => simp [mdel]
  | cons hd tl ih =>
    obtain ⟨k₀, v₀⟩ := hd
    simp only [List.map_cons, List.nodup_cons] at h
    by_cases h0 : k₀ = k
    · subst h0; simpa [mdel] using h.2
    · simp only [mdel]
      rw [if_neg h0]
      simp only [List.map_cons, List.nodup_cons]
      refine ⟨fun hmem => ?_, ih h.2⟩
      simp only [List.mem_map] at hmem
      obtain ⟨x, hx, hk⟩ := hmem
      exact h.1 (List.mem_map.2 ⟨x, mem_mdel hx, hk⟩)

theorem mlookup_mdel_self {α : Type} {l : List (String × α)} (k : String)
    (h : (l.map Prod.fst).Nodup) : mlookup (mdel l k) k = none := by
  induction l with
  | nil => simp [mdel, mlookup]
  | cons hd tl ih =>
    obtain ⟨k₀, v₀⟩ := hd
    simp only [List.map_cons, List.nodup_cons] at h
    by_cases h0 : k₀ = k
    · subst h0
      simp only [mdel, if_pos rfl]
      cases hm : mlookup tl k₀ with
      | none => exact hm
      | some v => exact absurd (List.mem_map.2 ⟨_, mem_of_mlookup hm, rfl⟩) h.1
    · simp [mdel, mlookup, h0, ih h.2]

theorem mlookup_none_of_not_any {α : Type} {l : List (String × α)}
    {k : String} (h : l.any (fun q => q.1 = k) = false) :
    mlookup l k = none := by
  induction l with
  | nil => simp [mlookup]
  | cons hd tl ih =>
    obtain ⟨k₀, v₀⟩ := hd
    simp only [List.any_cons, Bool.or_eq_false_iff, decide_eq_false_iff_not] at h
    simp [mlookup, h.1, ih h.2]

theorem mem_keys_of_mlookup {α : Type} {l : List (String × α)} {k : String}
    {v : α} (h : mlookup l k = some v) : k ∈ l.map Prod.fst :=
  List.mem_map.2 ⟨(k, v), mem_of_mlookup h, rfl⟩

/-! ## Operation-level lemmas -/

/-- The room stored for meeting `m` (empty when absent). -/
def roomOf (st : Registry) (m : String) : Room := (mlookup st m).getD []

/-- `rooms.get(m).size`, reading 0 when the room is absent. -/
def roomSize (st : Registry) (m : String) : Nat := (roomOf st m).length

theorem roomWF_of_lookup {st : Registry} {m : String} {room : Room}
    (h : RegWF st) (hm : mlookup st m = some room) :
    (room.map Prod.fst).Nodup :=
  h.2 (m, room) (mem_of_mlookup hm)

theorem handleLeave_lookup_ne (st : Registry) (sockId m m' : String)
    (h : m' ≠ m) : mlookup (handleLeave st sockId m).1 m' = mlookup st m' := by
  unfold handleLeave
  cases hm : mlookup st m with
  | none => rfl
  | some room =>
    simp only
    split
    · exact mlookup_mdel_ne st m m' h
    · exact mlookup_mset_ne st m m' _ h

theorem handleLeave_removes (st : Registry) (sockId m : String)
    (h : RegWF st) :
    mlookup (roomOf (handleLeave st sockId m).1 m) sockId = none := by
  unfold handleLeave
  cases hm : mlookup st m with
  | none => simp only [roomOf, hm]; rfl
  | some room =>
    simp only
    split
    · simp [roomOf, mlookup_mdel_self m h.1, mlookup]
    · rw [roomOf, mlookup_mset_self]
      exact mlookup_mdel_self sockId (roomWF_of_lookup h hm)

theorem handleLeave_WF (st : Registry) (sockId m : String) (h : RegWF st) :
    RegWF (handleLeave st sockId m).1 := by
  unfold handleLeave
  cases hm : mlookup st m with
  | none => exact h
  | some room =>
    simp only
    split
    · exact ⟨nodup_keys_mdel m h.1, fun p hp => h.2 p (mem_mdel hp)⟩
    · refine ⟨?_, ?_⟩
      · rw [keys_mset_of_mem st m _ (by simp [hm])]
        exact h.1
      · intro p hp
        rcases mem_mset hp with hp' | hp'
        · exact h.2 p hp'
        · rw [hp']
          exact nodup_keys_mdel sockId (roomWF_of_lookup h hm)

theorem disconnectAux_clears (sockId : String) :
    ∀ (ks : List String) (st : Registry), RegWF st →
      (∀ m, (mlookup (roomOf st m) sockId).isSome → m ∈ ks) →
      ∀ m, mlookup (roomOf (disconnectAux sockId ks st).1 m) sockId = none := by
  intro ks
  induction ks with
  | nil =>
    intro st _ hks m
    cases hv : mlookup (roomOf st m) sockId with
    | none => simpa [disconnectAux] using hv
    | some v => exact absurd (hks m (by simp [hv])) (by simp)
  | cons k rest ih =>
    intro st hwf hks m
    by_cases hc : ((mlookup st k).getD []).any (fun q => q.1 = sockId) = true
    · simp only [disconnectAux, hc, if_true]
      refine ih (handleLeave st sockId k).1 (handleLeave_WF st sockId k hwf)
        (fun m' hm' => ?_) m
      by_cases hmk : m' = k
      · rw [hmk] at hm'
        rw [handleLeave_removes st sockId k hwf] at hm'
        exact absurd hm' (by simp)
      · rw [roomOf, handleLeave_lookup_ne st sockId k m' hmk] at hm'
        have := hks m' hm'
        simp only [List.mem_cons] at this
        exact this.resolve_left hmk
    · simp only [disconnectAux, hc, if_false]
      refine ih st hwf (fun m' hm' => ?_) m
      by_cases hmk : m' = k
      · rw [hmk] at hm'
        rw [roomOf, mlookup_none_of_not_any (Bool.eq_false_iff.2 hc)] at hm'
        exact absurd hm' (by simp)
      · have := hks m' hm'
        simp only [List.mem_cons] at this
        exact this.resolve_left hmk

/-- The guard of the `remove-participant` handler (socket/index.js lines
211–214): the acting socket's stored handle exists in the room and is
flagged `isHost`. -/
def actorIsHost (st : Registry) (m actingSock : String) : Bool :=
  (((mlookup st m).bind (fun room => mlookup room actingSock)).map
    (fun me => me.isHost)).getD false

/-- The terminal outcome events of a join request, addressed to the
requesting socket: `join-approved` (emitted by `admitToRoom` or the
`approve-waiting` handler), `join-rejected`, `join-waiting-room`. -/
def isTerminalTo (sockId : String) : Ev → Bool
  | Ev.joinApproved d _ _ _ => d = sockId
  | Ev.joinApprovedNotice d _ => d = sockId
  | Ev.joinRejected d _ => d = sockId
  | Ev.joinWaitingRoom d _ => d = sockId
  | _ => false

theorem jsOrZero_eq_getD (d : Option Int) : jsOrZero d = d.getD 0 := by
  cases d with
  | none => rfl
  | some v =>
    by_cases hv : v = 0 <;> simp [jsOrZero, hv]

theorem admitToRoom_noEmpty (st : Registry) (sockId n u m : String)
    (h : Bool) (hne : NoEmptyRoom st) :
    NoEmptyRoom (admitToRoom st sockId n u m h).1 := by
  intro p hp
  rcases mem_mset hp with hp' | hp'
  · exact hne p hp'
  · rw [hp']
    exact mset_ne_nil _ _ _

theorem handleLeave_noEmpty (st : Registry) (sockId m : String)
    (hne : NoEmptyRoom st) : NoEmptyRoom (handleLeave st sockId m).1 := by
  unfold handleLeave
  cases hm : mlookup st m with
  | none => exact hne
  | some room =>
    simp only
    split
    · exact fun p hp => hne p (mem_mdel hp)
    · intro p hp
      rcases mem_mset hp with hp' | hp'
      · exact hne p hp'
      · rw [hp']
        intro hnil
        simp_all

theorem disconnectAux_noEmpty (sockId : String) (ks : List String) :
    ∀ st : Registry, NoEmptyRoom st →
      NoEmptyRoom (disconnectAux sockId ks st).1 := by
  induction ks with
  | nil => intro st hne; exact hne
  | cons k rest ih =>
    intro st hne
    by_cases hc : ((mlookup st k).getD []).any (fun q => q.1 = sockId) = true
    · simp only [disconnectAux, hc, if_true]
      exact ih _ (handleLeave_noEmpty st sockId k hne)
    · simp only [disconnectAux, hc, if_false]
      exact ih st hne

theorem foldl_add_map_cast (l : List ℕ) :
    ∀ a : ℚ, (l.map (fun n : ℕ => (n : ℚ))).foldl (fun acc t => acc + t) a
      = a + (l.sum : ℚ) := by
  induction l with
  | nil => intro a; simp
  | cons x xs ih =>
    intro a
    rw [List.map_cons, List.foldl_cons, List.sum_cons, ih (a + (x : ℚ)),
      Nat.cast_add]
    ring

/-! ## Claim theorems -/

/-- C1: for every admit (join-room admission), leave (leave-room /
disconnect) and host remove-participant operation, every
`participant-count` value broadcast by the operation equals the
cardinality of that room's membership map at the moment of the broadcast
(which is the operation's final membership for that meeting — the
broadcasts come after the mutations). -/
theorem participant_count_matches_membership
    (st : Registry) (sockId userName userId m leaveSock actingSock
      targetSock : String) (isHost targetConnected : Bool)
    (hwf : RegWF st) :
    (∀ m' c, Ev.participantCount m' c ∈
        (admitToRoom st sockId userName userId m isHost).2 →
      c = roomSize (admitToRoom st sockId userName userId m isHost).1 m') ∧
    (∀ m' c, Ev.participantCount m' c ∈ (handleLeave st leaveSock m).2 →
      c = roomSize (handleLeave st leaveSock m).1 m') ∧
    (∀ m' c, Ev.participantCount m' c ∈
        (removeParticipant st actingSock m targetSock targetConnected).2 →
      c = roomSize
        (removeParticipant st actingSock m targetSock targetConnected).1 m') := by
  refine ⟨?_, ?_, ?_⟩
  · intro m' c hmem
    simp only [admitToRoom, List.mem_cons, List.not_mem_nil, or_false] at hmem
    rcases hmem with h | h | h | h
    · cases h
    · cases h
    · rcases h with ⟨rfl, rfl⟩
      simp [admitToRoom, roomSize, roomOf, mlookup_mset_self]
    · cases h
  · intro m' c hmem
    unfold handleLeave at hmem ⊢
    cases hml : mlookup st m with
    | none => simp [hml] at hmem
    | some room =>
      simp only [hml, List.mem_cons, List.not_mem_nil, or_false] at hmem
      rcases hmem with h | h
      · cases h
      · rcases h with ⟨rfl, rfl⟩
        simp only [hml]
        by_cases hz : (mdel room leaveSock).length = 0
        · rw [if_pos hz, hz, roomSize, roomOf, mlookup_mdel_self m hwf.1]
          rfl
        · rw [if_neg hz, roomSize, roomOf, mlookup_mset_self]
          rfl
  · intro m' c hmem
    unfold removeParticipant at hmem ⊢
    cases hml : mlookup st m with
    | none => simp [hml] at hmem
    | some room =>
      cases hact : mlookup room actingSock with
      | none => simp [hml, hact] at hmem
      | some me =>
        cases hh : me.isHost with
        | false => simp [hml, hact, hh] at hmem
        | true =>
          cases targetConnected with
          | false => simp [hml, hact, hh] at hmem
          | true =>
            simp only [hml, hact, hh] at hmem ⊢
            simp at hmem
            obtain ⟨rfl, rfl⟩ := hmem
            simp [roomSize, roomOf, mlookup_mset_self]

/-- C1 witness: admitting a first participant to a fresh registry
broadcasts `participant-count` 1, the resulting room's size. -/
theorem participant_count_matches_membership_witness :
    RegWF ([] : Registry) ∧
    1 = roomSize (admitToRoom [] "a" "A" "u" "M" true).1 "M" := by
  have hwf : RegWF ([] : Registry) := by
    constructor
    · simp
    · intro p hp
      simp at hp
  refine ⟨hwf, ?_⟩
  exact (participant_count_matches_membership [] "a" "A" "u" "M" "x" "y" "z"
    true true hwf).1 "M" 1 (by decide)

/-- C2 counterexample: the claim says no operation ever leaves an empty
room in the registry.  But the `remove-participant` handler never deletes
an emptied room: in the reachable state where the host `"h"` is the sole
member of room `"M"` (created by one admission from the empty registry),
the host force-removing their own socket id empties the map, yet the
registry still holds `"M" ↦ ∅`. -/
theorem empty_room_persists_after_remove_counterexample :
    (removeParticipant (admitToRoom [] "h" "H" "u" "M" true).1 "h" "M" "h"
        true).1 = [("M", [])] ∧
    ¬ NoEmptyRoom
      (removeParticipant (admitToRoom [] "h" "H" "u" "M" true).1 "h" "M" "h"
        true).1 := by
  constructor
  · rfl
  · intro h
    exact h ("M", []) (by rw [show (removeParticipant
      (admitToRoom [] "h" "H" "u" "M" true).1 "h" "M" "h" true).1
        = [("M", [])] from rfl]; simp) rfl

/-- C2 amended: removal via leave-room or disconnect does delete a room
the instant its participant map becomes empty — if no empty room exists,
none exists after any admit, leave-room or disconnect operation.  The
host `remove-participant` path, however, does not delete the room it
empties (which it can only do when the host removes their own socket id),
so an empty room can persist through it. -/
theorem no_empty_room_preserved_except_remove (st : Registry)
    (sockId n u m : String) (h : Bool) (hne : NoEmptyRoom st) :
    NoEmptyRoom (admitToRoom st sockId n u m h).1 ∧
    NoEmptyRoom (handleLeave st sockId m).1 ∧
    NoEmptyRoom (disconnectOp st sockId).1 :=
  ⟨admitToRoom_noEmpty st sockId n u m h hne,
   handleLeave_noEmpty st sockId m hne,
   disconnectAux_noEmpty sockId _ st hne⟩

/-- C2 amended witness: leaving as the last member of room `"M"` deletes
the room, so the registry has no empty room afterwards. -/
theorem no_empty_room_preserved_except_remove_witness :
    NoEmptyRoom ((admitToRoom [] "a" "A" "u" "M" false).1) ∧
    NoEmptyRoom (handleLeave (admitToRoom [] "a" "A" "u" "M" false).1 "a"
      "M").1 := by
  have h0 : NoEmptyRoom ((admitToRoom [] "a" "A" "u" "M" false).1) := by
    intro p hp
    simp only [show (admitToRoom [] "a" "A" "u" "M" false).1
      = [("M", [("a", ⟨"A", "u", false⟩)])] from rfl] at hp
    simp at hp
    simp [hp]
  exact ⟨h0, (no_empty_room_preserved_except_remove
    (admitToRoom [] "a" "A" "u" "M" false).1 "a" "A" "u" "M" false h0).2.1⟩

/-- C3 counterexample: the claim says a connection-id is in at most one
room's participant map at a time.  But `admitToRoom` never removes the
socket from previously joined rooms: after socket `"s"` is admitted to
meeting `"A"` and then to meeting `"B"` with no intervening leave, its id
sits in both rooms' maps simultaneously. -/
theorem connection_in_two_rooms_counterexample :
    (mlookup (roomOf
      (admitToRoom (admitToRoom [] "s" "S" "u" "A" false).1
        "s" "S" "u" "B" false).1 "A") "s").isSome ∧
    (mlookup (roomOf
      (admitToRoom (admitToRoom [] "s" "S" "u" "A" false).1
        "s" "S" "u" "B" false).1 "B") "s").isSome := by
  constructor <;> rfl

/-- C3 amended: a connection-id can appear in several rooms' maps at
once, because join-room admission does not remove the connection from
rooms joined earlier; what does hold is that the disconnect handler
removes the connection-id from every room's map (on any well-formed
registry, i.e. one with unique meeting and socket keys, as every
registry built by the handlers is). -/
theorem disconnect_clears_connection_everywhere (st : Registry)
    (sockId : String) (hwf : RegWF st) :
    ∀ m, mlookup (roomOf (disconnectOp st sockId).1 m) sockId = none := by
  refine disconnectAux_clears sockId (st.map Prod.fst) st hwf
    (fun m hm => ?_)
  cases hml : mlookup st m with
  | none =>
    rw [roomOf, hml] at hm
    simp [mlookup] at hm
  | some room => exact mem_keys_of_mlookup hml

/-- C3 amended witness: disconnecting socket `"s"`, a member of both
rooms `"A"` and `"B"`, removes it from both. -/
theorem disconnect_clears_connection_everywhere_witness :
    RegWF (admitToRoom (admitToRoom [] "s" "S" "u" "A" false).1
      "s" "S" "u" "B" false).1 ∧
    mlookup (roomOf (disconnectOp
      (admitToRoom (admitToRoom [] "s" "S" "u" "A" false).1
        "s" "S" "u" "B" false).1 "s").1 "A") "s" = none ∧
    mlookup (roomOf (disconnectOp
      (admitToRoom (admitToRoom [] "s" "S" "u" "A" false).1
        "s" "S" "u" "B" false).1 "s").1 "B") "s" = none := by
  have hwf : RegWF (admitToRoom (admitToRoom [] "s" "S" "u" "A" false).1
      "s" "S" "u" "B" false).1 := by decide
  exact ⟨hwf,
    disconnect_clears_connection_everywhere _ "s" hwf "A",
    disconnect_clears_connection_everywhere _ "s" hwf "B"⟩

/-- C4 counterexample: the claim says every broadcast engagement score
lies in [0,100].  With tracked speaking times `[-1, 1]` (a negative
stored time is reachable, since the handler applies negative deltas
as-is — see C5) the sum is 0, `|| 1` turns the divisor into 1, and the
participant with speaking time `-1` is broadcast the score
`min(100, round(-1/1 × 100)) = -100`, outside [0,100]. -/
theorem engagement_score_out_of_range_counterexample :
    engagementScore [(-1 : ℚ), 1] (-1) = -100 ∧
    ¬ (0 ≤ engagementScore [(-1 : ℚ), 1] (-1)) := by
  have ht : totalSpeaking [(-1 : ℚ), 1] = 1 := by
    norm_num [totalSpeaking, List.foldl_cons, List.foldl_nil]
  have h : engagementScore [(-1 : ℚ), 1] (-1) = -100 := by
    rw [engagementScore, ht,
      show ((-1 : ℚ) / 1 * 100) = ((-100 : ℤ) : ℚ) by norm_num,
      round_intCast]
    decide
  exact ⟨h, by rw [h]; decide⟩

/-- C4 amended: when every tracked speaking time is a non-negative
integer (as when only non-negative integer deltas have been recorded),
each participant's broadcast score equals
`round(min(100, speakingTime_i / totalSpeakingTime_room × 100))` with the
total floored at 1 — the spec's formula — and lies in [0,100].  (The code
computes `min(100, round(...))` over the sum `|| 1`; over non-negative
integers the two agree.)  With negative stored times both the formula and
the range can fail, as the counterexample shows. -/
theorem engagement_score_formula_for_nonneg_times (ts : List ℕ) (t : ℕ)
    (ht : t ∈ ts) :
    engagementScore (ts.map (fun n : ℕ => (n : ℚ))) (t : ℚ)
      = specEngagementScore (ts.map (fun n : ℕ => (n : ℚ))) (t : ℚ) ∧
    0 ≤ engagementScore (ts.map (fun n : ℕ => (n : ℚ))) (t : ℚ) ∧
    engagementScore (ts.map (fun n : ℕ => (n : ℚ))) (t : ℚ) ≤ 100 := by
  have hsum : (ts.map (fun n : ℕ => (n : ℚ))).foldl (fun acc x => acc + x) 0
      = (ts.sum : ℚ) := by simpa using foldl_add_map_cast ts 0
  by_cases hz : ts.sum = 0
  · have htz : t = 0 := by
      rw [List.sum_eq_zero_iff] at hz
      exact hz t ht
    have htot : totalSpeaking (ts.map (fun n : ℕ => (n : ℚ))) = 1 := by
      rw [totalSpeaking]
      simp [hsum, hz]
    subst htz
    constructor
    · rw [engagementScore, specEngagementScore, htot, hsum, hz]
      norm_num
    · rw [engagementScore, htot]
      norm_num
  · have hspos : 0 < ts.sum := Nat.pos_of_ne_zero hz
    have h1le : (1 : ℚ) ≤ (ts.sum : ℚ) := by exact_mod_cast hspos
    have hqpos : (0 : ℚ) < (ts.sum : ℚ) := by linarith
    have htot : totalSpeaking (ts.map (fun n : ℕ => (n : ℚ)))
        = (ts.sum : ℚ) := by
      rw [totalSpeaking]
      simp only [hsum]
      rw [if_neg (by exact_mod_cast hz)]
    have hts : (t : ℚ) ≤ (ts.sum : ℚ) := by
      exact_mod_cast List.single_le_sum (fun x _ => Nat.zero_le x) t ht
    have hx0 : (0 : ℚ) ≤ (t : ℚ) / (ts.sum : ℚ) * 100 := by positivity
    have hx100 : (t : ℚ) / (ts.sum : ℚ) * 100 ≤ 100 := by
      have : (t : ℚ) / (ts.sum : ℚ) ≤ 1 := (div_le_one hqpos).2 hts
      linarith
    have hr0 : (0 : ℤ) ≤ round ((t : ℚ) / (ts.sum : ℚ) * 100) := by
      rw [round_eq]
      exact Int.le_floor.2 (by rw [Int.cast_zero]; linarith)
    have hr100 : round ((t : ℚ) / (ts.sum : ℚ) * 100) ≤ 100 := by
      rw [round_eq]
      have h101 : ⌊(t : ℚ) / (ts.sum : ℚ) * 100 + 1 / 2⌋ < 101 :=
        Int.floor_lt.2
          (by rw [show ((101 : ℤ) : ℚ) = 101 from by norm_num]; linarith)
      omega
    constructor
    · rw [engagementScore, specEngagementScore, htot, hsum,
        max_eq_left h1le, min_eq_right hr100, min_eq_right hx100]
    · rw [engagementScore, htot]
      exact ⟨le_min (by norm_num) hr0, min_le_of_right_le hr100⟩

/-- C4 amended witness: with speaking times `[3, 1]`, the participant
with time 3 gets score 75 under both the code and the spec formula, in
range. -/
theorem engagement_score_formula_for_nonneg_times_witness :
    (3 : ℕ) ∈ [3, 1] ∧
    (engagementScore ([3, 1].map (fun n : ℕ => (n : ℚ))) ((3 : ℕ) : ℚ)
        = specEngagementScore ([3, 1].map (fun n : ℕ => (n : ℚ)))
            ((3 : ℕ) : ℚ) ∧
      0 ≤ engagementScore ([3, 1].map (fun n : ℕ => (n : ℚ))) ((3 : ℕ) : ℚ) ∧
      engagementScore ([3, 1].map (fun n : ℕ => (n : ℚ))) ((3 : ℕ) : ℚ)
        ≤ 100) :=
  ⟨by decide, engagement_score_formula_for_nonneg_times [3, 1] 3 (by decide)⟩

/-- C5 counterexample: the claim says a negative delta is treated as
zero, so counters never decrease.  But `delta || 0` only maps the falsy
values (`undefined`, `0`, `NaN`) to 0 — a negative number is truthy in
JavaScript and is passed to `$inc` unchanged: a speaking-time counter of
5 updated with delta `-3` drops to 2. -/
theorem negative_delta_decreases_counter_counterexample :
    updateEngagementCounters 5 7 (some (-3)) none = (2, 7) ∧
    (updateEngagementCounters 5 7 (some (-3)) none).1 < 5 := by
  constructor <;> decide

/-- C5 amended: a missing delta is treated as zero, and each counter is
incremented by exactly the supplied delta — `delta || 0` is the identity
on every present number (a falsy number is 0 itself).  Consequently the
counters never decrease when the supplied deltas are non-negative, but a
negative delta is applied as-is and decreases its counter. -/
theorem counters_increment_by_given_delta (s c : Int)
    (sd cd : Option Int) :
    updateEngagementCounters s c sd cd = (s + sd.getD 0, c + cd.getD 0) ∧
    (0 ≤ sd.getD 0 → s ≤ (updateEngagementCounters s c sd cd).1) ∧
    (0 ≤ cd.getD 0 → c ≤ (updateEngagementCounters s c sd cd).2) := by
  have h : updateEngagementCounters s c sd cd
      = (s + sd.getD 0, c + cd.getD 0) := by
    rw [updateEngagementCounters, jsOrZero_eq_getD, jsOrZero_eq_getD]
  refine ⟨h, fun hs => ?_, fun hc => ?_⟩
  · rw [h]
    exact le_add_of_nonneg_right hs
  · rw [h]
    exact le_add_of_nonneg_right hc

/-- C5 amended witness: counters (1, 2) with deltas (+3, missing) become
(4, 2), not below the old values. -/
theorem counters_increment_by_given_delta_witness :
    (0 : Int) ≤ (Option.some (3 : Int)).getD 0 ∧
    (0 : Int) ≤ (Option.none (α := Int)).getD 0 ∧
    updateEngagementCounters 1 2 (some 3) none = (4, 2) ∧
    (1 : Int) ≤ (updateEngagementCounters 1 2 (some 3) none).1 ∧
    (2 : Int) ≤ (updateEngagementCounters 1 2 (some 3) none).2 := by
  have h := counters_increment_by_given_delta 1 2 (some 3) none
  exact ⟨by decide, by decide, by rw [h.1]; decide,
    h.2.1 (by decide), h.2.2 (by decide)⟩

/-- C6: the remove-participant operation is a no-op — registry unchanged
and no event emitted, neither the terminal notice to the target nor a
removal broadcast — whenever the acting connection's handle in the room
is absent or not flagged `isHost` (including when the room itself does
not exist). -/
theorem remove_participant_noop_for_non_host (st : Registry)
    (actingSock m targetSock : String) (targetConnected : Bool)
    (hnh : actorIsHost st m actingSock = false) :
    removeParticipant st actingSock m targetSock targetConnected
      = (st, []) := by
  unfold removeParticipant
  split
  · rfl
  next room heq =>
    split
    · rfl
    next me heq2 =>
      rw [actorIsHost, heq, Option.some_bind, heq2, Option.map_some',
        Option.getD_some] at hnh
      rw [hnh]
      rfl

/-- C6 witness: a sole non-host member of room `"M"` cannot remove
anyone: the state is returned unchanged with no events. -/
theorem remove_participant_noop_for_non_host_witness :
    actorIsHost (admitToRoom [] "a" "A" "u" "M" false).1 "M" "a" = false ∧
    removeParticipant (admitToRoom [] "a" "A" "u" "M" false).1 "a" "M" "b"
        true
      = ((admitToRoom [] "a" "A" "u" "M" false).1, []) :=
  ⟨by decide,
   remove_participant_noop_for_non_host _ "a" "M" "b" true (by decide)⟩

/-- C8: each of the three signaling relays (offer, answer, ice-candidate)
is silent when the target connection-id does not exist: the registry is
returned unchanged and no event at all is produced — nothing is forwarded
and no error is sent back to the sender. -/
theorem signaling_to_unknown_target_is_silent (st : Registry)
    (connected : List String) (senderSock senderName targetSock
      offerPayload answerPayload candidatePayload : String)
    (habs : targetSock ∉ connected) :
    relayOffer st connected senderSock senderName targetSock offerPayload
      = (st, []) ∧
    relayAnswer st connected senderSock targetSock answerPayload
      = (st, []) ∧
    relayIceCandidate st connected senderSock targetSock candidatePayload
      = (st, []) := by
  refine ⟨?_, ?_, ?_⟩ <;>
    simp [relayOffer, relayAnswer, relayIceCandidate, habs]

/-- C8 witness: with sockets `"a"`, `"b"` connected, signaling to the
unknown id `"ghost"` produces no output. -/
theorem signaling_to_unknown_target_is_silent_witness :
    ("ghost" ∉ ["a", "b"]) ∧
    relayOffer [] ["a", "b"] "a" "A" "ghost" "sdp" = ([], []) ∧
    relayAnswer [] ["a", "b"] "a" "ghost" "sdp" = ([], []) ∧
    relayIceCandidate [] ["a", "b"] "a" "ghost" "cand" = ([], []) := by
  have h := signaling_to_unknown_target_is_silent [] ["a", "b"] "a" "A"
    "ghost" "sdp" "sdp" "cand" (by decide)
  exact ⟨by decide, h.1, h.2.1, h.2.2⟩

/-- C7: for every join-room request — any token-check outcome, any
meeting-lookup outcome (not found, ended, locked, waiting-room enabled,
or a thrown internal failure) and any waiting-queue persistence outcome —
exactly one terminal outcome event (`join-approved`, `join-waiting-room`
or `join-rejected`) is emitted to the requesting connection: never zero,
never more than one. -/
theorem join_room_emits_exactly_one_terminal_outcome (st : Registry)
    (sockId userName userId m : String)
    (findRes : Except Unit (Option MeetingDoc)) (queueRes : Except Unit Unit)
    (tokenCheck : Option (Option (String × Bool))) :
    ((joinRoom st sockId userName userId m findRes queueRes
      tokenCheck).2.filter (isTerminalTo sockId)).length = 1 := by
  have hwait : ∀ qr : Except Unit Unit,
      ((waitingRoomQueueFlow st sockId userName userId m qr).2.filter
        (isTerminalTo sockId)).length = 1 := by
    intro qr
    cases qr with
    | error e => simp [waitingRoomQueueFlow, isTerminalTo]
    | ok w =>
      cases hfind : ((mlookup st m).getD []).find? (fun q => q.2.isHost) with
      | none => simp [waitingRoomQueueFlow, hfind, isTerminalTo]
      | some hp => simp [waitingRoomQueueFlow, hfind, isTerminalTo]
  have hcore : ∀ fr : Except Unit (Option MeetingDoc),
      ((joinRoomCore st sockId userName userId m queueRes fr).2.filter
        (isTerminalTo sockId)).length = 1 := by
    intro fr
    cases fr with
    | error e => simp [joinRoomCore, isTerminalTo]
    | ok mo =>
      cases mo with
      | none => simp [joinRoomCore, isTerminalTo]
      | some meeting =>
        simp only [joinRoomCore]
        split
        · simp [isTerminalTo]
        · split
          · simp [isTerminalTo]
          · split
            · exact hwait queueRes
            · simp [admitToRoom, isTerminalTo]
  cases tokenCheck with
  | none =>
    simp only [joinRoom]
    exact hcore findRes
  | some tk =>
    cases tk with
    | none => simp [joinRoom, isTerminalTo]
    | some pr =>
      obtain ⟨mid, auth⟩ := pr
      simp only [joinRoom]
      split
      · simp [isTerminalTo]
      · exact hcore findRes

/-- C9: admitting a connection-id that is already in the room's map
leaves the membership unchanged — same socket-id key sequence, same
size — while the admission info broadcasts are still emitted: the
participant list to the joiner, the `user-joined` notice to the others
and the unchanged participant count to the room. -/
theorem admit_already_present_keeps_membership (st : Registry)
    (sockId userName userId m : String) (isHost : Bool)
    (hmem : (mlookup (roomOf st m) sockId).isSome) :
    (roomOf (admitToRoom st sockId userName userId m isHost).1 m).map
        Prod.fst
      = (roomOf st m).map Prod.fst ∧
    roomSize (admitToRoom st sockId userName userId m isHost).1 m
      = roomSize st m ∧
    (∃ ps, Ev.roomParticipants sockId ps
      ∈ (admitToRoom st sockId userName userId m isHost).2) ∧
    Ev.userJoined m sockId ⟨userName, userId, isHost⟩
      ∈ (admitToRoom st sockId userName userId m isHost).2 ∧
    Ev.participantCount m (roomSize st m)
      ∈ (admitToRoom st sockId userName userId m isHost).2 := by
  have hkeys : (mset (roomOf st m) sockId
        ⟨userName, userId, isHost⟩).map Prod.fst
      = (roomOf st m).map Prod.fst :=
    keys_mset_of_mem _ _ _ hmem
  have hL : (mset (roomOf st m) sockId ⟨userName, userId, isHost⟩).length
      = (roomOf st m).length := by
    have h' := congrArg List.length hkeys
    simpa using h'
  have hroom : roomOf (admitToRoom st sockId userName userId m isHost).1 m
      = mset (roomOf st m) sockId ⟨userName, userId, isHost⟩ := by
    rw [roomOf, show (admitToRoom st sockId userName userId m isHost).1
        = mset st m (mset (roomOf st m) sockId ⟨userName, userId, isHost⟩)
      from rfl, mlookup_mset_self]
    rfl
  have hev : (admitToRoom st sockId userName userId m isHost).2
      = [ Ev.roomParticipants sockId
            ((mset (roomOf st m) sockId
              ⟨userName, userId, isHost⟩).filter (fun q => q.1 ≠ sockId)),
          Ev.userJoined m sockId ⟨userName, userId, isHost⟩,
          Ev.participantCount m
            ((mset (roomOf st m) sockId ⟨userName, userId, isHost⟩).length),
          Ev.joinApproved sockId m isHost
            (mset (roomOf st m) sockId ⟨userName, userId, isHost⟩) ] := rfl
  refine ⟨by rw [hroom, hkeys], by rw [roomSize, hroom, hL]; rfl, ?_, ?_, ?_⟩
  · exact ⟨_, by rw [hev]; exact List.mem_cons_self _ _⟩
  · rw [hev]
    simp
  · rw [hev, show roomSize st m
        = (mset (roomOf st m) sockId ⟨userName, userId, isHost⟩).length
      from by rw [roomSize]; exact hL.symm]
    simp

/-- C9 witness: re-admitting `"a"` (already the sole member of `"M"`)
leaves the key list `["a"]` and size 1 unchanged while the broadcasts
fire. -/
theorem admit_already_present_keeps_membership_witness :
    (mlookup (roomOf (admitToRoom [] "a" "A" "u" "M" true).1 "M")
      "a").isSome ∧
    (roomOf (admitToRoom (admitToRoom [] "a" "A" "u" "M" true).1
        "a" "A" "u" "M" true).1 "M").map Prod.fst
      = (roomOf (admitToRoom [] "a" "A" "u" "M" true).1 "M").map Prod.fst ∧
    roomSize (admitToRoom (admitToRoom [] "a" "A" "u" "M" true).1
        "a" "A" "u" "M" true).1 "M"
      = roomSize (admitToRoom [] "a" "A" "u" "M" true).1 "M" := by
  have h := admit_already_present_keeps_membership
    (admitToRoom [] "a" "A" "u" "M" true).1 "a" "A" "u" "M" true (by decide)
  exact ⟨by decide, h.1, h.2.1⟩

/-- C10: the approve-waiting handler admits any currently connected
`waitingSocketId` to the named room with `isHost = false` and sends it
`join-approved` — with no condition whatsoever on the sender
(`senderSock` below is arbitrary: the conclusion holds whether or not the
sender is a host, or even a member of the room), so any connected client
can trigger the admission. -/
theorem approve_waiting_admits_without_host_check (st : Registry)
    (senderSock : String) (connected : List String)
    (waitingSockId wName wUid m : String)
    (hconn : waitingSockId ∈ connected) :
    mlookup (roomOf (approveWaiting st senderSock connected waitingSockId
        wName wUid m).1 m) waitingSockId = some ⟨wName, wUid, false⟩ ∧
    Ev.joinApprovedNotice waitingSockId m
      ∈ (approveWaiting st senderSock connected waitingSockId wName wUid
          m).2 := by
  have hst : (approveWaiting st senderSock connected waitingSockId wName wUid
        m).1
      = mset st m (mset (roomOf st m) waitingSockId ⟨wName, wUid, false⟩) := by
    rw [approveWaiting, if_pos hconn]
    rfl
  have hev : (approveWaiting st senderSock connected waitingSockId wName wUid
        m).2
      = (admitToRoom st waitingSockId wName wUid m false).2
          ++ [Ev.joinApprovedNotice waitingSockId m] := by
    rw [approveWaiting, if_pos hconn]
  constructor
  · rw [roomOf, hst, mlookup_mset_self, Option.getD_some]
    exact mlookup_mset_self _ _ _
  · rw [hev]
    exact List.mem_append_right _ (by simp)

/-- C10 witness: an arbitrary connected sender `"mallory"`, member of no
room and host of nothing, gets the waiting socket `"w"` admitted to
`"M"`. -/
theorem approve_waiting_admits_without_host_check_witness :
    ("w" ∈ ["h", "w", "mallory"]) ∧
    mlookup (roomOf (approveWaiting [] "mallory" ["h", "w", "mallory"] "w"
        "W" "uw" "M").1 "M") "w" = some ⟨"W", "uw", false⟩ ∧
    Ev.joinApprovedNotice "w" "M"
      ∈ (approveWaiting [] "mallory" ["h", "w", "mallory"] "w" "W" "uw"
          "M").2 := by
  have h := approve_waiting_admits_without_host_check [] "mallory"
    ["h", "w", "mallory"] "w" "W" "uw" "M" (by decide)
  exact ⟨by decide, h.1, h.2⟩

end SmartMeeting
